import Mathlib

/-!
Shallow embedding of the RatDo terminal to-do application
(`src/todo.rs` and the event loop of `src/main.rs`), together with
theorems checking the specification's claims about it.

The embedding mirrors the Rust source: `Vec` becomes `List`,
`ListState` keeps only its `selected` field (the rendering offset is
view-only), `Option<usize>` becomes `Option Nat`, and panicking index
accesses become `getD` with a default (all claims are stated under the
in-bounds hypotheses that hold in the running program).  Timestamps
(`DateTime<Local>`) are modelled as an abstract `Int` value supplied to
the operations that read the clock.
-/

set_option autoImplicit false

namespace RatDo

/-- A to-do entry: `Todo` struct of `src/todo.rs`. -/
structure Todo where
  description : String
  completed : Bool
  created_at : Int
  deriving Repr, DecidableEq

instance : Inhabited Todo := ⟨⟨"", false, 0⟩⟩

/-- A named page of to-dos: `TodoPage` struct of `src/todo.rs`. -/
structure TodoPage where
  name : String
  todos : List Todo
  deriving Repr, DecidableEq

instance : Inhabited TodoPage := ⟨⟨"", []⟩⟩

/-- The three input modes of the application. -/
inductive InputMode where
  | Normal
  | Editing
  | PageSelect
  deriving Repr, DecidableEq

/-- ratatui `ListState`, reduced to the `selected` index it stores
(the scroll offset is render-only). -/
structure ListState where
  selected : Option Nat
  deriving Repr, DecidableEq

/-- The application state: `App` struct of `src/todo.rs`. -/
structure App where
  pages : List TodoPage
  current_page_index : Nat
  state : ListState
  page_select_state : ListState
  input_mode : InputMode
  current_input : String
  edit_mode : Bool
  picking_mode : Bool
  show_page_selector : Bool
  deriving Repr, DecidableEq

/-- `Vec::swap i j`, as a pure list operation (identity when either
index is out of bounds; the source only swaps in-bounds indices). -/
def listSwap {α : Type} (l : List α) (i j : Nat) : List α :=
  match l[i]?, l[j]? with
  | some a, some b => (l.set i b).set j a
  | _, _ => l

/-- `Todo::new`: fresh entry, not completed, stamped with the clock. -/
def Todo.new (description : String) (now : Int) : Todo :=
  { description := description, completed := false, created_at := now }

/-- `TodoPage::new`: a named page with no todos. -/
def TodoPage.new (name : String) : TodoPage :=
  { name := name, todos := [] }

/-- `App::new`: one "Default" page, both selections at index 0. -/
def App.new : App :=
  { pages := [TodoPage.new "Default"]
    current_page_index := 0
    state := ⟨some 0⟩
    page_select_state := ⟨some 0⟩
    input_mode := .Normal
    current_input := ""
    edit_mode := false
    picking_mode := false
    show_page_selector := false }

/-- `App::current_page`: the page at `current_page_index`
(the source indexes unconditionally; we use `getD`). -/
def App.current_page (app : App) : TodoPage :=
  app.pages.getD app.current_page_index default

/-- `App::todos`: the current page's todo list. -/
def App.todos (app : App) : List Todo :=
  app.current_page.todos

/-- `App::todos_mut` followed by a write: replace the current page's
todo list, keeping its name. -/
def App.setTodos (app : App) (ts : List Todo) : App :=
  { app with
    pages := app.pages.set app.current_page_index
      { app.current_page with todos := ts } }

/-- `App::add_page`: silently ignore empty or duplicate names,
otherwise append a new empty page and make it current. -/
def App.add_page (app : App) (name : String) : App :=
  if ¬name.isEmpty ∧ ¬app.pages.any (fun p => p.name == name) then
    let pages := app.pages ++ [TodoPage.new name]
    { app with
      pages := pages
      current_page_index := pages.length - 1
      page_select_state := ⟨some (pages.length - 1)⟩ }
  else app

/-- `App::select_page_by_name`: make the first page of that name
current and reset the todo selection; report whether it was found. -/
def App.select_page_by_name (app : App) (name : String) : App × Bool :=
  match app.pages.findIdx? (fun p => p.name == name) with
  | some index =>
    let app1 := { app with
      current_page_index := index
      page_select_state := ⟨some index⟩ }
    let app2 :=
      if 0 < app1.todos.length then { app1 with state := ⟨some 0⟩ }
      else { app1 with state := ⟨none⟩ }
    (app2, true)
  | none => (app, false)

/-- `App::next_page`: circular advance of the page selector, adopting
the page and resetting the todo selection. -/
def App.next_page (app : App) : App :=
  if ¬app.pages.isEmpty then
    let i := match app.page_select_state.selected with
      | some i => if app.pages.length - 1 ≤ i then 0 else i + 1
      | none => 0
    let app1 := { app with
      current_page_index := i
      page_select_state := ⟨some i⟩ }
    if 0 < app1.todos.length then { app1 with state := ⟨some 0⟩ }
    else { app1 with state := ⟨none⟩ }
  else app

/-- `App::previous_page`: circular retreat of the page selector,
adopting the page and resetting the todo selection. -/
def App.previous_page (app : App) : App :=
  if ¬app.pages.isEmpty then
    let i := match app.page_select_state.selected with
      | some i => if i = 0 then app.pages.length - 1 else i - 1
      | none => 0
    let app1 := { app with
      current_page_index := i
      page_select_state := ⟨some i⟩ }
    if 0 < app1.todos.length then { app1 with state := ⟨some 0⟩ }
    else { app1 with state := ⟨none⟩ }
  else app

/-- `App::toggle_page_selector`. -/
def App.toggle_page_selector (app : App) : App :=
  let app1 := { app with show_page_selector := !app.show_page_selector }
  if app1.show_page_selector then
    { app1 with
      input_mode := .PageSelect
      page_select_state := ⟨some app1.current_page_index⟩ }
  else { app1 with input_mode := .Normal }

/-- `App::toggle_picking_mode`. -/
def App.toggle_picking_mode (app : App) : App :=
  { app with picking_mode := !app.picking_mode }

/-- `App::next`: advance the todo selection circularly; in picking
mode additionally move the todo (move-to-front on the wrap from the
last index, a pairwise swap otherwise; never with at most one item). -/
def App.next (app : App) : App :=
  let todos := app.todos
  if todos.isEmpty then app
  else
    let i := match app.state.selected with
      | some i => if todos.length - 1 ≤ i then 0 else i + 1
      | none => 0
    let current := app.state.selected.getD 0
    let app1 :=
      if app.picking_mode ∧ i ≠ current then
        if 1 < todos.length then
          if current = todos.length - 1 ∧ i = 0 then
            app.setTodos (todos.getD current default :: todos.eraseIdx current)
          else
            app.setTodos (listSwap todos current i)
        else app
      else app
    { app1 with state := ⟨some i⟩ }

/-- `App::previous`: retreat the todo selection circularly; in picking
mode additionally move the todo (move-to-back on the wrap from index 0,
a pairwise swap otherwise; never with at most one item). -/
def App.previous (app : App) : App :=
  let todos := app.todos
  if todos.isEmpty then app
  else
    let i := match app.state.selected with
      | some i => if i = 0 then todos.length - 1 else i - 1
      | none => 0
    let current := app.state.selected.getD 0
    let app1 :=
      if app.picking_mode ∧ i ≠ current then
        if 1 < todos.length then
          if current = 0 ∧ i = todos.length - 1 then
            app.setTodos (todos.eraseIdx 0 ++ [todos.getD 0 default])
          else
            app.setTodos (listSwap todos current i)
        else app
      else app
    { app1 with state := ⟨some i⟩ }

/-- `App::add_todo`: append a new todo built from the input buffer,
then clear the buffer.  `now` stands for `Local::now()`. -/
def App.add_todo (app : App) (now : Int) : App :=
  let todo := Todo.new app.current_input now
  let app1 := app.setTodos (app.todos ++ [todo])
  { app1 with current_input := "" }

/-- `App::delete_todo`: remove the selected todo; when the removed
index equals the new length and is positive, step the selection back. -/
def App.delete_todo (app : App) : App :=
  match app.state.selected with
  | some selected =>
    let todos := app.todos
    if ¬todos.isEmpty ∧ selected < todos.length then
      let app1 := app.setTodos (todos.eraseIdx selected)
      if 0 < selected ∧ selected = app1.todos.length then
        { app1 with state := ⟨some (selected - 1)⟩ }
      else app1
    else app
  | none => app

/-- `App::toggle_todo`: flip the selected todo's `completed` flag and,
on a false-to-true transition, advance via `App.next`. -/
def App.toggle_todo (app : App) : App :=
  match app.state.selected with
  | some selected =>
    let todos := app.todos
    if ¬todos.isEmpty ∧ selected < todos.length then
      let was_completed := (todos.getD selected default).completed
      let td := todos.getD selected default
      let app1 := app.setTodos (todos.set selected { td with completed := !td.completed })
      if ¬was_completed ∧ (app1.todos.getD selected default).completed then
        app1.next
      else app1
    else app
  | none => app

/-- `App::start_editing`: load the selected description into the
buffer and enter Editing with `edit_mode` set. -/
def App.start_editing (app : App) : App :=
  match app.state.selected with
  | some selected =>
    let todos := app.todos
    if ¬todos.isEmpty ∧ selected < todos.length then
      { app with
        current_input := (todos.getD selected default).description
        input_mode := .Editing
        edit_mode := true }
    else app
  | none => app

/-- `App::update_todo`: commit the buffer as the selected todo's new
description, clearing the buffer first. -/
def App.update_todo (app : App) : App :=
  match app.state.selected with
  | some selected =>
    let ci := app.current_input
    let app1 := { app with current_input := "" }
    let todos := app1.todos
    if ¬todos.isEmpty ∧ selected < todos.length then
      let td := todos.getD selected default
      app1.setTodos (todos.set selected { td with description := ci })
    else app1
  | none => app

/-- `App::create_or_select_page`: select when present, else add. -/
def App.create_or_select_page (app : App) (name : String) : App :=
  let r := app.select_page_by_name name
  if r.2 then r.1 else r.1.add_page name

/-! ### Persistence

`save_todos`/`load_todos` go through `serde_json` and `chrono`, which
are external library code, not part of this repository's sources.  The
serialization itself is therefore modelled from the spec as a small
JSON value type with an encoder and a partial decoder; the branch
structure of `load_todos` (page array, legacy flat item array, neither)
is taken from the source. -/

/-- Modelled from the spec: a JSON document value, standing in for the
`serde_json` text representation (external code not under `src/`).
Timestamps are carried as exact numbers, reflecting the spec's
"serialized in a format that round-trips exactly". -/
inductive Json where
  | str (s : String)
  | bool (b : Bool)
  | num (n : Int)
  | arr (xs : List Json)
  | obj (fields : List (String × Json))

/-- Modelled from the spec: serde serialization of a `Todo`. -/
def encodeTodo (t : Todo) : Json :=
  .obj [("description", .str t.description),
        ("completed", .bool t.completed),
        ("created_at", .num t.created_at)]

/-- Modelled from the spec: serde deserialization of a `Todo`. -/
def decodeTodo (j : Json) : Option Todo :=
  match j with
  | .obj [("description", .str d), ("completed", .bool c), ("created_at", .num n)] =>
    some { description := d, completed := c, created_at := n }
  | _ => none

/-- Modelled from the spec: serde serialization of a `TodoPage`. -/
def encodePage (p : TodoPage) : Json :=
  .obj [("name", .str p.name), ("todos", .arr (p.todos.map encodeTodo))]

/-- Modelled from the spec: element-wise deserialization of an item
array; fails if any element fails. -/
def decodeTodoList : List Json → Option (List Todo)
  | [] => some []
  | j :: rest =>
    match decodeTodo j, decodeTodoList rest with
    | some t, some ts => some (t :: ts)
    | _, _ => none

/-- Modelled from the spec: serde deserialization of a `TodoPage`. -/
def decodePage (j : Json) : Option TodoPage :=
  match j with
  | .obj [("name", .str n), ("todos", .arr xs)] =>
    (decodeTodoList xs).map (fun ts => { name := n, todos := ts })
  | _ => none

/-- Modelled from the spec: element-wise deserialization of a page
array; fails if any element fails. -/
def decodePageList : List Json → Option (List TodoPage)
  | [] => some []
  | j :: rest =>
    match decodePage j, decodePageList rest with
    | some p, some ps => some (p :: ps)
    | _, _ => none

/-- Modelled from the spec: serialization of the page collection, the
document `save_todos` writes. -/
def encodePages (ps : List TodoPage) : Json :=
  .arr (ps.map encodePage)

/-- Modelled from the spec: deserialization as `Vec<TodoPage>`. -/
def decodePages (j : Json) : Option (List TodoPage) :=
  match j with
  | .arr xs => decodePageList xs
  | _ => none

/-- Modelled from the spec: deserialization as a legacy flat
`Vec<Todo>` document. -/
def decodeLegacy (j : Json) : Option (List Todo) :=
  match j with
  | .arr xs => decodeTodoList xs
  | _ => none

/-- Classification of the stored file's content as `load_todos` sees
it: absent file, page array, legacy flat item array, or neither. -/
inductive StoredContent where
  | absent
  | pages (ps : List TodoPage)
  | legacyTodos (ts : List Todo)
  | invalid

/-- How `load_todos` classifies an existing document: try the page
schema, fall back to the legacy item schema, else invalid. -/
def parseContent (j : Json) : StoredContent :=
  match decodePages j with
  | some ps => .pages ps
  | none =>
    match decodeLegacy j with
    | some ts => .legacyTodos ts
    | none => .invalid

/-- Tail of `App::load_todos` after deserialization: install the pages,
re-add a "Default" page if there are none, set the initial selection
(only when the current page is non-empty — there is no else branch in
the source), and reset both page indices to 0. -/
def App.finishLoad (app : App) (ps : List TodoPage) : App :=
  let app1 := { app with pages := ps }
  let app2 :=
    if app1.pages.isEmpty then
      { app1 with pages := app1.pages ++ [TodoPage.new "Default"] }
    else app1
  let app3 :=
    if ¬app2.todos.isEmpty then { app2 with state := ⟨some 0⟩ } else app2
  { app3 with page_select_state := ⟨some 0⟩, current_page_index := 0 }

/-- `App::load_todos` on the classified file content.  An absent file
leaves the state unchanged; a failed parse falls back to the legacy
item schema, whose own failure (`unwrap_or_default`) yields an empty
item list, so both fallbacks produce a single "Default" page. -/
def App.load_todos (app : App) (content : StoredContent) : App :=
  match content with
  | .absent => app
  | .pages ps => app.finishLoad ps
  | .legacyTodos ts => app.finishLoad [{ name := "Default", todos := ts }]
  | .invalid => app.finishLoad [{ name := "Default", todos := [] }]

/-- `App::save_todos`: the document written to disk is the
serialization of the page collection. -/
def App.save_todos (app : App) : Json :=
  encodePages app.pages

/-! ### Event loop of `src/main.rs` -/

/-- The key events `run_app` distinguishes. -/
inductive KeyCode where
  | char (c : Char)
  | enter
  | esc
  | tab
  | backtab
  | down
  | up
  | backspace
  deriving Repr, DecidableEq

/-- The PageSelect `'d'` handler of `run_app` (named
`delete_selected_page` after the spec): with more than one page,
remove the page at the selector's position, clamp the selector, adopt
it as `current_page_index` and reset the todo selection; otherwise do
nothing. -/
def App.delete_selected_page (app : App) : App :=
  if 1 < app.pages.length then
    match app.page_select_state.selected with
    | some selected =>
      let pages1 := app.pages.eraseIdx selected
      let pss :=
        if pages1.length ≤ selected then some (pages1.length - 1)
        else some selected
      let app1 := { app with
        pages := pages1
        page_select_state := ⟨pss⟩ }
      let app2 := { app1 with
        current_page_index := app1.page_select_state.selected.getD 0 }
      if 0 < app2.todos.length then { app2 with state := ⟨some 0⟩ }
      else { app2 with state := ⟨none⟩ }
    | none => app
  else app

/-- Normal-mode key dispatch of `run_app` (`'q'` saves and exits the
loop; as a state transformer it leaves the state unchanged). -/
def stepNormal (app : App) (k : KeyCode) : App :=
  match k with
  | .char c =>
    if c = 'q' then app
    else if c = 'e' then
      if ¬app.todos.isEmpty then app.start_editing else app
    else if c = 'a' then
      { app with input_mode := .Editing, edit_mode := false, current_input := "" }
    else if c = 'd' then app.delete_todo
    else if c = Char.ofNat 32 then app.toggle_todo
    else if c = 'p' then
      if ¬app.todos.isEmpty then app.toggle_picking_mode else app
    else if c = 'P' then app.toggle_page_selector
    else if c = 'j' then app.next
    else if c = 'k' then app.previous
    else app
  | .tab => app.next_page
  | .backtab => app.previous_page
  | .down => app.next
  | .up => app.previous
  | _ => app

/-- Editing-mode key dispatch of `run_app`.  On Enter the three
guarded branches run in order (page creation, edit commit, add), and
the trailing assignments set `input_mode := Normal` and
`edit_mode := false` unconditionally. -/
def stepEditing (app : App) (now : Int) (k : KeyCode) : App :=
  match k with
  | .enter =>
    let app1 :=
      if app.show_page_selector ∧ ¬app.current_input.isEmpty then
        let a := app.add_page app.current_input
        { a with
          current_input := ""
          show_page_selector := false
          input_mode := .Normal }
      else if app.edit_mode ∧ ¬app.current_input.isEmpty then
        app.update_todo
      else if ¬app.current_input.isEmpty then
        app.add_todo now
      else app
    { app1 with input_mode := .Normal, edit_mode := false }
  | .char c => { app with current_input := app.current_input.push c }
  | .backspace => { app with current_input := app.current_input.dropRight 1 }
  | .esc =>
    { app with input_mode := .Normal, edit_mode := false, show_page_selector := false }
  | _ => app

/-- The PageSelect down-navigation handler of `run_app` (`Down`/`j`):
advance only the selector index, circularly. -/
def App.page_select_down (app : App) : App :=
  if ¬app.pages.isEmpty then
    let i := match app.page_select_state.selected with
      | some i => if app.pages.length - 1 ≤ i then 0 else i + 1
      | none => 0
    { app with page_select_state := ⟨some i⟩ }
  else app

/-- The PageSelect up-navigation handler of `run_app` (`Up`/`k`):
retreat only the selector index, circularly. -/
def App.page_select_up (app : App) : App :=
  if ¬app.pages.isEmpty then
    let i := match app.page_select_state.selected with
      | some i => if i = 0 then app.pages.length - 1 else i - 1
      | none => 0
    { app with page_select_state := ⟨some i⟩ }
  else app

/-- PageSelect-mode key dispatch of `run_app`.  Enter adopts the
selector index as the current page without touching the item
selection; `j`/`k`/arrows move only the selector. -/
def stepPageSelect (app : App) (k : KeyCode) : App :=
  match k with
  | .enter =>
    match app.page_select_state.selected with
    | some selected =>
      { app with
        current_page_index := selected
        show_page_selector := false
        input_mode := .Normal }
    | none => app
  | .char c =>
    if c = 'n' ∨ c = 'a' then
      { app with input_mode := .Editing, edit_mode := false, current_input := "" }
    else if c = 'd' then app.delete_selected_page
    else if c = 'j' then app.page_select_down
    else if c = 'k' then app.page_select_up
    else if c = 'P' then
      { app with show_page_selector := false, input_mode := .Normal }
    else app
  | .down => app.page_select_down
  | .up => app.page_select_up
  | .esc => { app with show_page_selector := false, input_mode := .Normal }
  | _ => app

/-- One key-press iteration of `run_app`'s loop as a state
transformer (`now` stands for the clock read by `add_todo`). -/
def step (now : Int) (app : App) (k : KeyCode) : App :=
  match app.input_mode with
  | .Normal => stepNormal app k
  | .Editing => stepEditing app now k
  | .PageSelect => stepPageSelect app k

/-- An operation of the application: a key press handled by the event
loop or a (re)load of the persisted state. -/
inductive Op where
  | key (now : Int) (k : KeyCode)
  | load (c : StoredContent)

/-- Apply one operation. -/
def applyOp (app : App) : Op → App
  | .key now k => step now app k
  | .load c => app.load_todos c

/-- Run a sequence of operations from the freshly constructed app,
as `main` does. -/
def run (ops : List Op) : App :=
  ops.foldl applyOp App.new

/-- The structural invariant of the application state: at least one
page, a valid current page index, and a valid page-selector index. -/
def Inv (app : App) : Prop :=
  0 < app.pages.length ∧
  app.current_page_index < app.pages.length ∧
  ∀ i, app.page_select_state.selected = some i → i < app.pages.length

/-! ### Concrete sample states used by witnesses and counterexamples -/

/-- Sample todo "A". -/
def tdA : Todo := ⟨"A", false, 0⟩

/-- Sample todo "B". -/
def tdB : Todo := ⟨"B", false, 1⟩

/-- Sample todo "C". -/
def tdC : Todo := ⟨"C", false, 2⟩

/-- Page of three items with the last one selected, picking mode on. -/
def appABC : App :=
  { App.new with
    pages := [⟨"Default", [tdA, tdB, tdC]⟩]
    picking_mode := true
    state := ⟨some 2⟩ }

/-- Fresh app whose single page holds one item, selected at 0. -/
def app1item : App :=
  { App.new with pages := [⟨"Default", [tdA]⟩] }

/-- Fresh app with a second one-item copy, for a separate concrete
delete scenario. -/
def app1itemB : App :=
  { App.new with pages := [⟨"Default", [tdB]⟩] }

/-- Fresh app switched to Editing mode with an empty input buffer. -/
def appEd : App :=
  { App.new with input_mode := .Editing }

/-- Two incomplete items with the first selected, picking mode on. -/
def appPick : App :=
  { App.new with
    pages := [⟨"Default", [tdA, tdB]⟩]
    picking_mode := true }

/-- Three pages with the selector and current page on the last one. -/
def app3p : App :=
  { App.new with
    pages := [⟨"P0", [tdA]⟩, ⟨"P1", []⟩, ⟨"P2", [tdB]⟩]
    current_page_index := 2
    page_select_state := ⟨some 2⟩ }

/-- Two pages, in PageSelect mode with the selector on page 1 while
the item selection still points at index 0 of page 0. -/
def appPS : App :=
  { App.new with
    pages := [⟨"P0", [tdA]⟩, ⟨"P1", [tdB, tdC]⟩]
    input_mode := .PageSelect
    show_page_selector := true
    page_select_state := ⟨some 1⟩ }

/-! ### Helper lemmas -/

theorem findIdx?_some_lt {α : Type} {p : α → Bool} {l : List α} {i : Nat}
    (h : l.findIdx? p = some i) : i < l.length := by
  induction l generalizing i with
  | nil => simp [List.findIdx?] at h
  | cons a t ih =>
    rw [List.findIdx?_cons] at h
    split at h
    · injection h with h
      simp [h.symm]
    · rw [List.findIdx?_succ] at h
      cases hi : t.findIdx? p with
      | none => rw [hi] at h; simp at h
      | some j =>
        rw [hi] at h; simp at h
        have := ih hi
        simp [h.symm]
        omega

theorem list_set_getD {α : Type} (l : List α) (n : Nat) (d : α)
    (h : n < l.length) : l.set n (l.getD n d) = l := by
  have hg : l.getD n d = l[n] := by
    rw [List.getD_eq_getElem?_getD, List.getElem?_eq_getElem h]
    rfl
  rw [hg]
  apply List.ext_getElem?
  intro i
  by_cases hi : i = n
  · subst hi
    rw [List.getElem?_set_self h, List.getElem?_eq_getElem h]
  · rw [List.getElem?_set_ne fun he => hi he.symm]

theorem list_getD_set {α : Type} (l : List α) (n : Nat) (a d : α)
    (h : n < l.length) : (l.set n a).getD n d = a := by
  rw [List.getD_eq_getElem?_getD, List.getElem?_set_self h]
  rfl

theorem todos_setTodos (app : App) (ts : List Todo)
    (h : app.current_page_index < app.pages.length) :
    (app.setTodos ts).todos = ts := by
  simp only [App.setTodos, App.todos, App.current_page,
    List.getD_eq_getElem?_getD, List.getElem?_set_self h]
  rfl

theorem setTodos_frame (app : App) (ts : List Todo) :
    (app.setTodos ts).pages.length = app.pages.length ∧
    (app.setTodos ts).current_page_index = app.current_page_index ∧
    (app.setTodos ts).page_select_state = app.page_select_state ∧
    (app.setTodos ts).state = app.state ∧
    (app.setTodos ts).picking_mode = app.picking_mode := by
  simp [App.setTodos]

/-- C1: with `picking_mode` on and a valid selected index on the
current page, a forward navigation from the last index moves the
selected item to the front, a backward navigation from index 0 moves
the item at the front to the back, every non-wrapping navigation is a
pairwise swap of the current and target positions, no reorder happens
with at most one item, and the selection always becomes the target
index. -/
theorem picking_mode_reorder (app : App) (hp : app.picking_mode = true)
    (hcpi : app.current_page_index < app.pages.length) :
    (∀ s, app.state.selected = some s → s = app.todos.length - 1 →
      2 ≤ app.todos.length →
      (app.next).todos = app.todos.getD s default :: app.todos.eraseIdx s ∧
      (app.next).state.selected = some 0) ∧
    (app.state.selected = some 0 → 2 ≤ app.todos.length →
      (app.previous).todos = app.todos.eraseIdx 0 ++ [app.todos.getD 0 default] ∧
      (app.previous).state.selected = some (app.todos.length - 1)) ∧
    (∀ s, app.state.selected = some s → s + 1 < app.todos.length →
      (app.next).todos = listSwap app.todos s (s + 1) ∧
      (app.next).state.selected = some (s + 1)) ∧
    (∀ s, app.state.selected = some s → 0 < s → s < app.todos.length →
      (app.previous).todos = listSwap app.todos s (s - 1) ∧
      (app.previous).state.selected = some (s - 1)) ∧
    (app.todos.length ≤ 1 →
      (app.next).todos = app.todos ∧ (app.previous).todos = app.todos) ∧
    (∀ s, app.state.selected = some s → s < app.todos.length →
      (app.next).state.selected =
        some (if app.todos.length - 1 ≤ s then 0 else s + 1) ∧
      (app.previous).state.selected =
        some (if s = 0 then app.todos.length - 1 else s - 1)) := by
  refine ⟨?_, ?_, ?_, ?_, ?_, ?_⟩
  · intro s hsel hs h2
    have hne : app.todos.isEmpty = false :=
      List.isEmpty_eq_false.mpr (by intro h; rw [h] at h2; simp at h2)
    simp only [App.next, hne, hsel, hp, Bool.false_eq_true, if_false,
      Option.getD_some, true_and]
    repeat' split
    all_goals first
      | exact ⟨todos_setTodos app _ hcpi, rfl⟩
      | omega
      | simp_all
  · intro hsel h2
    have hne : app.todos.isEmpty = false :=
      List.isEmpty_eq_false.mpr (by intro h; rw [h] at h2; simp at h2)
    simp only [App.previous, hne, hsel, hp, Bool.false_eq_true, if_false,
      Option.getD_some, true_and]
    repeat' split
    all_goals first
      | exact ⟨todos_setTodos app _ hcpi, rfl⟩
      | omega
      | simp_all
  · intro s hsel hlt
    have hne : app.todos.isEmpty = false :=
      List.isEmpty_eq_false.mpr (by intro h; rw [h] at hlt; simp at hlt)
    simp only [App.next, hne, hsel, hp, Bool.false_eq_true, if_false,
      Option.getD_some, true_and]
    repeat' split
    all_goals first
      | exact ⟨todos_setTodos app _ hcpi, rfl⟩
      | omega
      | simp_all
  · intro s hsel hpos hlt
    have hne : app.todos.isEmpty = false :=
      List.isEmpty_eq_false.mpr (by intro h; rw [h] at hlt; simp at hlt)
    simp only [App.previous, hne, hsel, hp, Bool.false_eq_true, if_false,
      Option.getD_some, true_and]
    repeat' split
    all_goals first
      | exact ⟨todos_setTodos app _ hcpi, rfl⟩
      | omega
      | simp_all
  · intro h1
    by_cases hne : app.todos.isEmpty
    · constructor
      · simp only [App.next, hne, if_true]
      · simp only [App.previous, hne, if_true]
    · simp only [Bool.not_eq_true] at hne
      have h1' : app.todos.length = 1 := by
        rw [List.isEmpty_eq_false] at hne
        have := List.length_pos.mpr hne
        omega
      constructor
      · simp only [App.next, hne, Bool.false_eq_true, if_false, hp, true_and]
        repeat' split
        all_goals first | rfl | omega | simp_all
      · simp only [App.previous, hne, Bool.false_eq_true, if_false, hp, true_and]
        repeat' split
        all_goals first | rfl | omega | simp_all
  · intro s hsel hlt
    have hne : app.todos.isEmpty = false :=
      List.isEmpty_eq_false.mpr (by intro h; rw [h] at hlt; simp at hlt)
    constructor
    · simp only [App.next, hne, hsel, Bool.false_eq_true, if_false]
      repeat' split
      all_goals first | rfl | omega | simp_all
    · simp only [App.previous, hne, hsel, Bool.false_eq_true, if_false]
      repeat' split
      all_goals first | rfl | omega | simp_all
/-- Witness for C1 at the concrete page `[A,B,C]` with `C` selected
and picking mode on: forward navigation wraps and moves `C` to the
front, with the selection following it to index 0. -/
theorem picking_mode_reorder_witness :
    appABC.picking_mode = true ∧
    (appABC.next).todos = appABC.todos.getD 2 default :: appABC.todos.eraseIdx 2 ∧
    (appABC.next).state.selected = some 0 :=
  ⟨rfl, (picking_mode_reorder appABC rfl (by decide)).1 2 rfl (by decide) (by decide)⟩

/-- C2 (amended): `select_page_by_name`, when it finds the page, does
establish the selection invariant — `some 0` on a non-empty page and
`none` on an empty one — but the invariant does not hold after every
operation: deleting the last remaining item leaves the selection at
`some 0` on the now-empty page, and `add_page` leaves the item
selection unchanged although the new empty page becomes current. -/
theorem selection_invariant_corrected (app : App) (name : String) :
    ((app.select_page_by_name name).2 = true →
      ((app.select_page_by_name name).1.todos ≠ [] →
        (app.select_page_by_name name).1.state.selected = some 0) ∧
      ((app.select_page_by_name name).1.todos = [] →
        (app.select_page_by_name name).1.state.selected = none)) ∧
    (app.state.selected = some 0 → app.todos.length = 1 →
      app.current_page_index < app.pages.length →
      app.delete_todo.todos = [] ∧ app.delete_todo.state.selected = some 0) ∧
    (app.add_page name).state = app.state := by
  refine ⟨?_, ?_, ?_⟩
  · intro h2t
    cases hf : app.pages.findIdx? (fun p => p.name == name) with
    | none =>
      exfalso
      simp only [App.select_page_by_name, hf] at h2t
      exact Bool.false_ne_true h2t
    | some idx =>
      simp only [App.select_page_by_name, hf]
      split
      · refine ⟨fun _ => rfl, fun he => ?_⟩
        exfalso
        simp only [App.todos, App.current_page] at he
        simp_all [App.todos, App.current_page]
      · refine ⟨fun hne => ?_, fun _ => rfl⟩
        exfalso
        simp_all [App.todos, App.current_page]
  · intro hsel hlen hcpi
    have hne : app.todos.isEmpty = false :=
      List.isEmpty_eq_false.mpr (List.ne_nil_of_length_pos (by omega))
    obtain ⟨t, ht⟩ := List.length_eq_one.mp hlen
    have hset : (app.setTodos (app.todos.eraseIdx 0)).todos = app.todos.eraseIdx 0 :=
      todos_setTodos app _ hcpi
    simp only [App.delete_todo, hsel]
    rw [if_pos ⟨by simp [hne], by omega⟩]
    rw [if_neg (by omega)]
    refine ⟨?_, ?_⟩
    · rw [hset, ht]
      rfl
    · have hstate : (app.setTodos (app.todos.eraseIdx 0)).state = app.state :=
        (setTodos_frame app _).2.2.2.1
      rw [hstate, hsel]
  · simp only [App.add_page]
    split <;> rfl

/-- Counterexample for C2 as stated: deleting the only item of the
page leaves the page empty with the selection still at `some 0`, not
`none`. -/
theorem selection_invariant_cx :
    app1item.delete_todo.todos = [] ∧
    app1item.delete_todo.state.selected = some 0 := by decide

/-- Witness for the amended C2: on the concrete three-page state,
selecting the empty page "P1" by name resets the selection to `none`,
and the `add_page` conjunct applies concretely. -/
theorem selection_invariant_corrected_witness :
    (app3p.select_page_by_name "P1").2 = true ∧
    (app3p.select_page_by_name "P1").1.state.selected = none ∧
    (app3p.add_page "P3").state = app3p.state := by
  have h := selection_invariant_corrected app3p "P3"
  refine ⟨by decide, ?_, h.2.2⟩
  exact ((selection_invariant_corrected app3p "P1").1 (by decide)).2 (by decide)

/-- C3 (amended): in Editing mode, Enter always transitions to Normal
mode and clears `edit_mode`, whatever the buffer holds — the trailing
assignments of the handler run unconditionally; the three guarded
branch actions run only when their guards hold, so with an empty
buffer the pages, item selection and buffer are unchanged. -/
theorem editing_enter_exits (app : App) (now : Int)
    (h : app.input_mode = .Editing) :
    (step now app .enter).input_mode = .Normal ∧
    (step now app .enter).edit_mode = false ∧
    (app.current_input.isEmpty = true →
      (step now app .enter).pages = app.pages ∧
      (step now app .enter).state = app.state ∧
      (step now app .enter).current_input = app.current_input) := by
  refine ⟨?_, ?_, ?_⟩
  · simp [step, h, stepEditing]
  · simp [step, h, stepEditing]
  · intro he
    simp [step, h, stepEditing, he]

/-- Counterexample for C3 as stated: from Editing mode with an empty
buffer, Enter does not stay in Editing — it transitions to Normal. -/
theorem editing_enter_cx :
    appEd.input_mode = .Editing ∧ appEd.current_input = "" ∧
    (step 0 appEd .enter).input_mode = .Normal := by decide

/-- Witness for the amended C3 at the concrete Editing-mode state. -/
theorem editing_enter_exits_witness :
    (step 0 appEd .enter).input_mode = .Normal ∧
    (step 0 appEd .enter).edit_mode = false ∧
    (step 0 appEd .enter).pages = appEd.pages :=
  ⟨(editing_enter_exits appEd 0 rfl).1, (editing_enter_exits appEd 0 rfl).2.1,
    ((editing_enter_exits appEd 0 rfl).2.2 rfl).1⟩

/-- C5 (amended): `delete_todo` removes the item at the selected
index; when the removed index was the last valid one and not the
first, the selection steps back by one; otherwise — including when the
page becomes empty — the selection keeps its value `some s` (it does
not become `none`). -/
theorem delete_todo_behavior (app : App) (s : Nat)
    (hcpi : app.current_page_index < app.pages.length)
    (hsel : app.state.selected = some s) (hs : s < app.todos.length) :
    app.delete_todo.todos = app.todos.eraseIdx s ∧
    app.delete_todo.state.selected =
      (if 0 < s ∧ s = app.todos.length - 1 then some (s - 1) else some s) := by
  have hne : app.todos.isEmpty = false :=
    List.isEmpty_eq_false.mpr (List.ne_nil_of_length_pos (by omega))
  have hset : (app.setTodos (app.todos.eraseIdx s)).todos = app.todos.eraseIdx s :=
    todos_setTodos app _ hcpi
  have hstate : (app.setTodos (app.todos.eraseIdx s)).state = app.state :=
    (setTodos_frame app _).2.2.2.1
  have hlen : (app.todos.eraseIdx s).length = app.todos.length - 1 := by
    rw [List.length_eraseIdx]
    simp [hs]
  simp only [App.delete_todo, hsel]
  rw [if_pos ⟨by simp [hne], hs⟩]
  rw [hset, hlen]
  by_cases hc : 0 < s ∧ s = app.todos.length - 1
  · rw [if_pos hc, if_pos hc]
    exact ⟨hset, rfl⟩
  · rw [if_neg hc, if_neg hc]
    exact ⟨hset, by rw [hstate, hsel]⟩

/-- Counterexample for C5 as stated: deleting the only item empties
the page but the selection stays `some 0` instead of becoming
`none`. -/
theorem delete_todo_cx :
    app1itemB.delete_todo.todos = [] ∧
    app1itemB.delete_todo.state.selected ≠ none := by decide

/-- Witness for the amended C5 at a concrete one-item page. -/
theorem delete_todo_behavior_witness :
    app1item.delete_todo.todos = app1item.todos.eraseIdx 0 ∧
    app1item.delete_todo.state.selected =
      (if 0 < 0 ∧ 0 = app1item.todos.length - 1 then some (0 - 1) else some 0) :=
  delete_todo_behavior app1item 0 (by decide) rfl (by decide)

theorem next_not_picking (a : App) (hp : a.picking_mode = false) :
    a.next.todos = a.todos ∧
    a.next.pages.length = a.pages.length ∧
    a.next.current_page_index = a.current_page_index ∧
    a.next.picking_mode = false ∧
    (∀ s, a.state.selected = some s → a.todos.isEmpty = false →
      a.next.state.selected = some (if a.todos.length - 1 ≤ s then 0 else s + 1)) := by
  refine ⟨?_, ?_, ?_, ?_, ?_⟩
  · simp only [App.next, hp]
    split <;> rfl
  · simp only [App.next, hp]
    split <;> rfl
  · simp only [App.next, hp]
    split <;> rfl
  · simp only [App.next, hp]
    split <;> exact hp
  · intro s hsel hne
    simp only [App.next, hp, hsel, hne, Bool.false_eq_true, if_false,
      false_and]

/-- Single-toggle characterization with picking mode off: the item's
flag is flipped in place and the selection advances exactly on the
false-to-true transition. -/
theorem toggle_todo_spec (app : App) (s : Nat)
    (hpick : app.picking_mode = false)
    (hcpi : app.current_page_index < app.pages.length)
    (hsel : app.state.selected = some s) (hs : s < app.todos.length) :
    app.toggle_todo.todos =
      app.todos.set s { app.todos.getD s default with
        completed := !(app.todos.getD s default).completed } ∧
    app.toggle_todo.pages.length = app.pages.length ∧
    app.toggle_todo.current_page_index = app.current_page_index ∧
    app.toggle_todo.picking_mode = false ∧
    app.toggle_todo.state.selected =
      (if (app.todos.getD s default).completed then some s
       else some (if app.todos.length - 1 ≤ s then 0 else s + 1)) := by
  have hne : app.todos.isEmpty = false :=
    List.isEmpty_eq_false.mpr (List.ne_nil_of_length_pos (by omega))
  have hset : (app.setTodos (app.todos.set s { app.todos.getD s default with
      completed := !(app.todos.getD s default).completed })).todos =
      app.todos.set s { app.todos.getD s default with
        completed := !(app.todos.getD s default).completed } :=
    todos_setTodos app _ hcpi
  simp only [App.toggle_todo, hsel]
  rw [if_pos ⟨by simp [hne], hs⟩]
  rw [hset, list_getD_set _ _ _ _ hs]
  rcases Bool.eq_false_or_eq_true (app.todos.getD s default).completed with htc | htc <;>
    (have htc2 := htc; rw [List.getD_eq_getElem?_getD] at htc2)
  case inl =>
    rw [if_neg (by simp [htc2])]
    refine ⟨hset, (setTodos_frame app _).1, (setTodos_frame app _).2.1,
      by rw [(setTodos_frame app _).2.2.2.2, hpick], ?_⟩
    rw [htc, if_pos rfl, (setTodos_frame app _).2.2.2.1, hsel]
  case inr =>
    rw [if_pos (by simp [htc2])]
    have hp1 : (app.setTodos (app.todos.set s { app.todos.getD s default with
        completed := !(app.todos.getD s default).completed })).picking_mode = false := by
      rw [(setTodos_frame app _).2.2.2.2, hpick]
    obtain ⟨n1, n2, n3, n4, n5⟩ := next_not_picking _ hp1
    have hsel1 : (app.setTodos (app.todos.set s { app.todos.getD s default with
        completed := !(app.todos.getD s default).completed })).state.selected = some s := by
      rw [(setTodos_frame app _).2.2.2.1, hsel]
    have hne1 : (app.setTodos (app.todos.set s { app.todos.getD s default with
        completed := !(app.todos.getD s default).completed })).todos.isEmpty = false := by
      rw [hset]
      exact List.isEmpty_eq_false.mpr
        (List.ne_nil_of_length_pos (by rw [List.length_set]; omega))
    refine ⟨by rw [n1, hset], by rw [n2, (setTodos_frame app _).1],
      by rw [n3, (setTodos_frame app _).2.1], n4, ?_⟩
    rw [if_neg (by simp [htc2]), n5 s hsel1 hne1, hset, List.length_set]

theorem set_flip_twice (l : List Todo) (n : Nat) (h : n < l.length) :
    (l.set n { l.getD n default with
        completed := !(l.getD n default).completed }).set n
      { (l.set n { l.getD n default with
          completed := !(l.getD n default).completed }).getD n default with
        completed := !((l.set n { l.getD n default with
          completed := !(l.getD n default).completed }).getD n default).completed } = l := by
  rw [list_getD_set _ _ _ _ h, List.set_set]
  generalize hg : l.getD n default = td
  cases td with
  | mk d c t =>
    simp only [Bool.not_not]
    rw [← hg]
    exact list_set_getD l n default h

/-- C7 (amended): with `picking_mode` off, toggling the same item
twice restores its original `completed` value and its original
position, the only side effect being the selection advance triggered
on the false-to-true transition; with `picking_mode` on the
auto-advance physically reorders the page (see the counterexample), so
the original position is not restored. -/
theorem toggle_twice_restores (app : App) (s : Nat)
    (hpick : app.picking_mode = false)
    (hcpi : app.current_page_index < app.pages.length)
    (hsel : app.state.selected = some s) (hs : s < app.todos.length) :
    app.toggle_todo.todos =
      app.todos.set s { app.todos.getD s default with
        completed := !(app.todos.getD s default).completed } ∧
    app.toggle_todo.state.selected =
      (if (app.todos.getD s default).completed then some s
       else some (if app.todos.length - 1 ≤ s then 0 else s + 1)) ∧
    ({ app.toggle_todo with state := ⟨some s⟩ }).toggle_todo.todos = app.todos := by
  obtain ⟨t1, t2, t3, t4, t5⟩ := toggle_todo_spec app s hpick hcpi hsel hs
  refine ⟨t1, t5, ?_⟩
  have hpick2 : ({ app.toggle_todo with state := (⟨some s⟩ : ListState) }).picking_mode = false := t4
  have hcpi2 : ({ app.toggle_todo with state := (⟨some s⟩ : ListState) }).current_page_index <
      ({ app.toggle_todo with state := (⟨some s⟩ : ListState) }).pages.length := by
    show app.toggle_todo.current_page_index < app.toggle_todo.pages.length
    rw [t3, t2]
    exact hcpi
  have htodos2 : ({ app.toggle_todo with state := (⟨some s⟩ : ListState) }).todos =
      app.todos.set s { app.todos.getD s default with
        completed := !(app.todos.getD s default).completed } := t1
  have hs2 : s < ({ app.toggle_todo with state := (⟨some s⟩ : ListState) }).todos.length := by
    rw [htodos2, List.length_set]
    exact hs
  obtain ⟨u1, _, _, _, _⟩ :=
    toggle_todo_spec { app.toggle_todo with state := ⟨some s⟩ } s hpick2 hcpi2 rfl hs2
  rw [u1, htodos2]
  exact set_flip_twice app.todos s hs

/-- Counterexample for C7 as stated: with picking mode on, toggling
the incomplete first item auto-advances via a reordering `next`, so
after toggling the same (tracked) item a second time its `completed`
flag is back to false but the page order has changed. -/
theorem toggle_twice_cx :
    appPick.picking_mode = true ∧
    appPick.todos = [tdA, tdB] ∧
    appPick.toggle_todo.toggle_todo.todos = [tdB, tdA] ∧
    appPick.toggle_todo.toggle_todo.todos ≠ appPick.todos := by decide

/-- Witness for the amended C7 on a concrete two-item page with the
completed first item selected. -/
theorem toggle_twice_restores_witness :
    ({ App.new with pages := [⟨"Default", [⟨"A", true, 0⟩, tdB]⟩] } : App).toggle_todo.toggle_todo.todos =
      ({ App.new with pages := [⟨"Default", [⟨"A", true, 0⟩, tdB]⟩] } : App).todos := by
  have h := toggle_twice_restores
    { App.new with pages := [⟨"Default", [⟨"A", true, 0⟩, tdB]⟩] }
    0 rfl (by decide) rfl (by decide)
  have h2 := h.2.2
  have hst : ({ ({ App.new with pages := [⟨"Default", [⟨"A", true, 0⟩, tdB]⟩] } : App).toggle_todo
      with state := (⟨some 0⟩ : ListState) }) =
      ({ App.new with pages := [⟨"Default", [⟨"A", true, 0⟩, tdB]⟩] } : App).toggle_todo := by
    decide
  rw [hst] at h2
  exact h2

/-- C9: deleting the only remaining page is a no-op; with several
pages, the page at the selector's position is removed, the selector
and the current page index are re-clamped into valid range, and the
item selection is reset for the resulting current page (`some 0` when
it has items, `none` when it is empty). -/
theorem delete_selected_page_spec (app : App) :
    (app.pages.length = 1 → app.delete_selected_page = app) ∧
    (∀ sel, 1 < app.pages.length → app.page_select_state.selected = some sel →
      sel < app.pages.length →
      app.delete_selected_page.pages = app.pages.eraseIdx sel ∧
      app.delete_selected_page.page_select_state.selected =
        some (if app.pages.length - 1 ≤ sel then app.pages.length - 1 - 1 else sel) ∧
      app.delete_selected_page.current_page_index =
        (if app.pages.length - 1 ≤ sel then app.pages.length - 1 - 1 else sel) ∧
      app.delete_selected_page.current_page_index <
        app.delete_selected_page.pages.length ∧
      app.delete_selected_page.state.selected =
        (if 0 < app.delete_selected_page.todos.length then some 0 else none)) := by
  refine ⟨?_, ?_⟩
  · intro hlen
    simp only [App.delete_selected_page]
    rw [if_neg (by omega)]
  · intro sel h1 hsel hlt
    have hl1 : (app.pages.eraseIdx sel).length = app.pages.length - 1 := by
      rw [List.length_eraseIdx]
      simp [hlt]
    simp only [App.delete_selected_page, hsel]
    rw [if_pos h1, hl1]
    split
    · split
      all_goals
        refine ⟨rfl, rfl, rfl, ?_, ?_⟩
      · simp only [hl1, Option.getD_some]; omega
      · simp only [App.todos, App.current_page] at *
        split
        · rfl
        · omega
      · simp only [hl1, Option.getD_some]; omega
      · simp only [App.todos, App.current_page] at *
        split
        · omega
        · rfl
    · split
      all_goals
        refine ⟨rfl, rfl, rfl, ?_, ?_⟩
      · simp only [hl1, Option.getD_some]; omega
      · simp only [App.todos, App.current_page] at *
        split
        · rfl
        · omega
      · simp only [hl1, Option.getD_some]; omega
      · simp only [App.todos, App.current_page] at *
        split
        · omega
        · rfl

/-- Witness for C9 on the concrete three-page state with the selector
on the last page. -/
theorem delete_selected_page_spec_witness :
    app3p.delete_selected_page.pages = app3p.pages.eraseIdx 2 ∧
    app3p.delete_selected_page.page_select_state.selected =
      some (if app3p.pages.length - 1 ≤ 2 then app3p.pages.length - 1 - 1 else 2) ∧
    app3p.delete_selected_page.current_page_index =
      (if app3p.pages.length - 1 ≤ 2 then app3p.pages.length - 1 - 1 else 2) ∧
    app3p.delete_selected_page.current_page_index <
      app3p.delete_selected_page.pages.length ∧
    app3p.delete_selected_page.state.selected =
      (if 0 < app3p.delete_selected_page.todos.length then some 0 else none) :=
  (delete_selected_page_spec app3p).2 2 (by decide) rfl (by decide)

/-- C10: in PageSelect mode, Enter adopts the selector index as the
current page, closes the selector and returns to Normal mode, while —
unlike `next_page`, `previous_page` and `select_page_by_name` — it
leaves the item-selection state untouched, so the previous page's
selection carries over to the new current page; pages, buffer and the
selector index are also unchanged. -/
theorem pageselect_enter_adopts (app : App) (now : Int) (sel : Nat)
    (hm : app.input_mode = .PageSelect)
    (hsel : app.page_select_state.selected = some sel) :
    (step now app .enter).current_page_index = sel ∧
    (step now app .enter).show_page_selector = false ∧
    (step now app .enter).input_mode = .Normal ∧
    (step now app .enter).state = app.state ∧
    (step now app .enter).pages = app.pages ∧
    (step now app .enter).page_select_state = app.page_select_state ∧
    (step now app .enter).current_input = app.current_input := by
  simp [step, hm, stepPageSelect, hsel]

/-- Witness for C10 on a concrete two-page state in PageSelect mode:
the stale item selection `some 0` carries over to the adopted page. -/
theorem pageselect_enter_adopts_witness :
    (step 0 appPS .enter).current_page_index = 1 ∧
    (step 0 appPS .enter).state = appPS.state ∧
    (step 0 appPS .enter).input_mode = .Normal :=
  ⟨(pageselect_enter_adopts appPS 0 1 rfl rfl).1,
    (pageselect_enter_adopts appPS 0 1 rfl rfl).2.2.2.1,
    (pageselect_enter_adopts appPS 0 1 rfl rfl).2.2.1⟩

/-- C8: a stored document that parses as the legacy flat item array
loads as exactly one page named "Default" holding those items in their
original order; a document matching neither schema still loads as at
least one page (a single empty "Default" page), never zero pages. -/
theorem load_fallback (app : App) (ts : List Todo) :
    (app.load_todos (.legacyTodos ts)).pages =
      [{ name := "Default", todos := ts }] ∧
    (app.load_todos .invalid).pages = [{ name := "Default", todos := [] }] ∧
    (app.load_todos .invalid).pages ≠ [] := by
  refine ⟨?_, ?_, ?_⟩
  · simp only [App.load_todos, App.finishLoad]
    simp only [App.todos, App.current_page]
    simp
    split <;> rfl
  · simp only [App.load_todos, App.finishLoad]
    simp
    split <;> rfl
  · simp only [App.load_todos, App.finishLoad]
    split <;> split <;> simp

theorem decodeTodo_encodeTodo (t : Todo) : decodeTodo (encodeTodo t) = some t := by
  cases t
  rfl

theorem decodeTodos_encodeTodos (ts : List Todo) :
    decodeTodoList (ts.map encodeTodo) = some ts := by
  induction ts with
  | nil => rfl
  | cons t rest ih =>
    simp [decodeTodoList, decodeTodo_encodeTodo, ih]

theorem decodePage_encodePage (p : TodoPage) : decodePage (encodePage p) = some p := by
  cases p with
  | mk n ts =>
    simp [encodePage, decodePage, decodeTodos_encodeTodos]

theorem decodePages_encodePages (ps : List TodoPage) :
    decodePages (encodePages ps) = some ps := by
  simp only [encodePages, decodePages]
  induction ps with
  | nil => rfl
  | cons p rest ih =>
    simp only [List.map_cons, decodePageList, decodePage_encodePage]
    simp only [List.map_cons, decodePageList] at ih
    simp [ih]

/-- C6: round-trip persistence — the document written by `save_todos`
parses back under the page-array schema, and loading it reproduces the
identical ordered sequence of pages, each item keeping its
description, completed flag and timestamp in order (the page
collection of a running app is never empty, per the invariant
theorem). -/
theorem save_load_roundtrip (app loader : App) (h : app.pages ≠ []) :
    parseContent app.save_todos = StoredContent.pages app.pages ∧
    (loader.load_todos (parseContent app.save_todos)).pages = app.pages := by
  have hp : parseContent app.save_todos = StoredContent.pages app.pages := by
    simp [parseContent, App.save_todos, decodePages_encodePages]
  refine ⟨hp, ?_⟩
  rw [hp]
  simp only [App.load_todos, App.finishLoad]
  simp [List.isEmpty_iff, h]
  split <;> rfl

/-- Witness for C6 at a concrete three-page state. -/
theorem save_load_roundtrip_witness :
    (App.new.load_todos (parseContent app3p.save_todos)).pages = app3p.pages :=
  (save_load_roundtrip app3p App.new (by decide)).2

theorem Inv.of_frame {a b : App} (h : Inv a)
    (hl : b.pages.length = a.pages.length)
    (hc : b.current_page_index = a.current_page_index)
    (hp : b.page_select_state = a.page_select_state) : Inv b := by
  obtain ⟨h1, h2, h3⟩ := h
  refine ⟨by rw [hl]; exact h1, by rw [hl, hc]; exact h2, ?_⟩
  intro i hi
  rw [hl]
  exact h3 i (by rw [← hp]; exact hi)

theorem next_frame (a : App) :
    a.next.pages.length = a.pages.length ∧
    a.next.current_page_index = a.current_page_index ∧
    a.next.page_select_state = a.page_select_state := by
  simp only [App.next, App.setTodos]
  repeat' split
  all_goals simp

theorem previous_frame (a : App) :
    a.previous.pages.length = a.pages.length ∧
    a.previous.current_page_index = a.current_page_index ∧
    a.previous.page_select_state = a.page_select_state := by
  simp only [App.previous, App.setTodos]
  repeat' split
  all_goals simp

theorem delete_todo_frame (a : App) :
    a.delete_todo.pages.length = a.pages.length ∧
    a.delete_todo.current_page_index = a.current_page_index ∧
    a.delete_todo.page_select_state = a.page_select_state := by
  simp only [App.delete_todo, App.setTodos]
  repeat' split
  all_goals simp

theorem add_todo_frame (a : App) (now : Int) :
    (a.add_todo now).pages.length = a.pages.length ∧
    (a.add_todo now).current_page_index = a.current_page_index ∧
    (a.add_todo now).page_select_state = a.page_select_state := by
  simp only [App.add_todo, App.setTodos]
  simp

theorem update_todo_frame (a : App) :
    a.update_todo.pages.length = a.pages.length ∧
    a.update_todo.current_page_index = a.current_page_index ∧
    a.update_todo.page_select_state = a.page_select_state := by
  simp only [App.update_todo, App.setTodos]
  repeat' split
  all_goals simp

theorem start_editing_frame (a : App) :
    a.start_editing.pages.length = a.pages.length ∧
    a.start_editing.current_page_index = a.current_page_index ∧
    a.start_editing.page_select_state = a.page_select_state := by
  simp only [App.start_editing]
  repeat' split
  all_goals simp

theorem toggle_todo_frame (a : App) :
    a.toggle_todo.pages.length = a.pages.length ∧
    a.toggle_todo.current_page_index = a.current_page_index ∧
    a.toggle_todo.page_select_state = a.page_select_state := by
  refine ⟨?_, ?_, ?_⟩
  · simp only [App.toggle_todo]
    repeat' split
    all_goals try simp [App.setTodos]
    all_goals refine ((next_frame _).1).trans ?_
    all_goals simp
  · simp only [App.toggle_todo]
    repeat' split
    all_goals try simp [App.setTodos]
    all_goals refine ((next_frame _).2.1).trans ?_
    all_goals simp
  · simp only [App.toggle_todo]
    repeat' split
    all_goals try simp [App.setTodos]
    all_goals refine ((next_frame _).2.2).trans ?_
    all_goals simp

theorem inv_next {a : App} (h : Inv a) : Inv a.next :=
  Inv.of_frame h (next_frame a).1 (next_frame a).2.1 (next_frame a).2.2

theorem inv_previous {a : App} (h : Inv a) : Inv a.previous :=
  Inv.of_frame h (previous_frame a).1 (previous_frame a).2.1 (previous_frame a).2.2

theorem inv_delete_todo {a : App} (h : Inv a) : Inv a.delete_todo :=
  Inv.of_frame h (delete_todo_frame a).1 (delete_todo_frame a).2.1 (delete_todo_frame a).2.2

theorem inv_toggle_todo {a : App} (h : Inv a) : Inv a.toggle_todo :=
  Inv.of_frame h (toggle_todo_frame a).1 (toggle_todo_frame a).2.1 (toggle_todo_frame a).2.2

theorem inv_add_todo {a : App} (now : Int) (h : Inv a) : Inv (a.add_todo now) :=
  Inv.of_frame h (add_todo_frame a now).1 (add_todo_frame a now).2.1 (add_todo_frame a now).2.2

theorem inv_update_todo {a : App} (h : Inv a) : Inv a.update_todo :=
  Inv.of_frame h (update_todo_frame a).1 (update_todo_frame a).2.1 (update_todo_frame a).2.2

theorem inv_start_editing {a : App} (h : Inv a) : Inv a.start_editing :=
  Inv.of_frame h (start_editing_frame a).1 (start_editing_frame a).2.1 (start_editing_frame a).2.2

theorem inv_toggle_picking {a : App} (h : Inv a) : Inv a.toggle_picking_mode :=
  Inv.of_frame h rfl rfl rfl

theorem inv_add_page {a : App} (h : Inv a) (name : String) : Inv (a.add_page name) := by
  simp only [App.add_page]
  split
  · refine ⟨by simp, by simp, ?_⟩
    intro i hi
    simp at hi
    simp
    omega
  · exact h

theorem inv_select_page_by_name {a : App} (h : Inv a) (name : String) :
    Inv (a.select_page_by_name name).1 := by
  simp only [App.select_page_by_name]
  cases hf : a.pages.findIdx? (fun p => p.name == name) with
  | none => exact h
  | some idx =>
    have hidx : idx < a.pages.length := findIdx?_some_lt hf
    dsimp only
    split
    · exact ⟨h.1, hidx, fun i hi => by simp at hi ⊢; omega⟩
    · exact ⟨h.1, hidx, fun i hi => by simp at hi ⊢; omega⟩

theorem inv_toggle_page_selector {a : App} (h : Inv a) : Inv a.toggle_page_selector := by
  simp only [App.toggle_page_selector]
  split
  · exact ⟨h.1, h.2.1, fun i hi => by simp at hi ⊢; have := h.2.1; omega⟩
  · exact Inv.of_frame h rfl rfl rfl

theorem inv_next_page {a : App} (h : Inv a) : Inv a.next_page := by
  obtain ⟨h1, h2, h3⟩ := h
  simp only [App.next_page]
  split
  case isFalse => exact ⟨h1, h2, h3⟩
  case isTrue hne =>
    have hlen : 0 < a.pages.length := by
      rcases hp : a.pages with _ | _
      · rw [hp] at hne; simp at hne
      · simp [hp]
    cases hps : a.page_select_state.selected with
    | none =>
      simp only [hps]
      split <;>
        exact ⟨by simpa using hlen, by simpa using hlen,
          fun i hi => by simp at hi ⊢; omega⟩
    | some i0 =>
      have hi0 : i0 < a.pages.length := h3 i0 hps
      simp only [hps]
      repeat' split
      all_goals
        refine ⟨by simpa using hlen, ?_, ?_⟩
        · simp
          first
            | (split <;> omega)
            | omega
        · intro i hi
          simp at hi ⊢
          first
            | (split at hi <;> omega)
            | omega

theorem inv_previous_page {a : App} (h : Inv a) : Inv a.previous_page := by
  obtain ⟨h1, h2, h3⟩ := h
  simp only [App.previous_page]
  split
  case isFalse => exact ⟨h1, h2, h3⟩
  case isTrue hne =>
    have hlen : 0 < a.pages.length := by
      rcases hp : a.pages with _ | _
      · rw [hp] at hne; simp at hne
      · simp [hp]
    cases hps : a.page_select_state.selected with
    | none =>
      simp only [hps]
      split <;>
        exact ⟨by simpa using hlen, by simpa using hlen,
          fun i hi => by simp at hi ⊢; omega⟩
    | some i0 =>
      have hi0 : i0 < a.pages.length := h3 i0 hps
      simp only [hps]
      repeat' split
      all_goals
        refine ⟨by simpa using hlen, ?_, ?_⟩
        · simp
          first
            | (split <;> omega)
            | omega
        · intro i hi
          simp at hi ⊢
          first
            | (split at hi <;> omega)
            | omega

theorem inv_page_select_down {a : App} (h : Inv a) : Inv a.page_select_down := by
  obtain ⟨h1, h2, h3⟩ := h
  simp only [App.page_select_down]
  split
  case isFalse => exact ⟨h1, h2, h3⟩
  case isTrue hne =>
    cases hps : a.page_select_state.selected with
    | none =>
      simp only [hps]
      exact ⟨h1, h2, fun i hi => by simp at hi ⊢; omega⟩
    | some i0 =>
      have hi0 : i0 < a.pages.length := h3 i0 hps
      simp only [hps]
      repeat' split
      all_goals
        refine ⟨h1, h2, ?_⟩
        intro i hi
        simp at hi ⊢
        first
          | (split at hi <;> omega)
          | omega

theorem inv_page_select_up {a : App} (h : Inv a) : Inv a.page_select_up := by
  obtain ⟨h1, h2, h3⟩ := h
  simp only [App.page_select_up]
  split
  case isFalse => exact ⟨h1, h2, h3⟩
  case isTrue hne =>
    cases hps : a.page_select_state.selected with
    | none =>
      simp only [hps]
      exact ⟨h1, h2, fun i hi => by simp at hi ⊢; omega⟩
    | some i0 =>
      have hi0 : i0 < a.pages.length := h3 i0 hps
      simp only [hps]
      repeat' split
      all_goals
        refine ⟨h1, h2, ?_⟩
        intro i hi
        simp at hi ⊢
        first
          | (split at hi <;> omega)
          | omega

theorem inv_delete_selected_page {a : App} (h : Inv a) : Inv a.delete_selected_page := by
  obtain ⟨h1, h2, h3⟩ := h
  simp only [App.delete_selected_page]
  split
  case isFalse => exact ⟨h1, h2, h3⟩
  case isTrue hgt =>
    cases hps : a.page_select_state.selected with
    | none => exact ⟨h1, h2, h3⟩
    | some sel =>
      have hsel : sel < a.pages.length := h3 sel hps
      have hlen : (a.pages.eraseIdx sel).length = a.pages.length - 1 := by
        rw [List.length_eraseIdx]
        simp [hsel]
      simp only [hps]
      repeat' split
      all_goals
        refine ⟨by simp [hlen]; omega, by simp [hlen, Option.getD_some]; omega, ?_⟩
        intro i hi
        simp [hlen] at hi ⊢
        omega

theorem inv_finishLoad (a : App) (ps : List TodoPage) : Inv (a.finishLoad ps) := by
  simp only [App.finishLoad]
  repeat' split
  all_goals
    refine ⟨?_, ?_, ?_⟩ <;>
      first
        | (simp_all [List.isEmpty_iff]
           try exact List.length_pos.mpr (by assumption))
        | (intro i hi
           simp_all [List.isEmpty_iff]
           try exact List.length_pos.mpr (by assumption))

theorem inv_load_todos {a : App} (h : Inv a) (c : StoredContent) :
    Inv (a.load_todos c) := by
  cases c with
  | absent => exact h
  | pages ps => exact inv_finishLoad a ps
  | legacyTodos ts => exact inv_finishLoad a _
  | invalid => exact inv_finishLoad a _

theorem inv_stepNormal {a : App} (h : Inv a) (k : KeyCode) :
    Inv (stepNormal a k) := by
  cases k <;> simp only [stepNormal]
  case char c =>
    repeat' split
    all_goals first
      | exact h
      | exact Inv.of_frame h rfl rfl rfl
      | exact inv_start_editing h
      | exact inv_delete_todo h
      | exact inv_toggle_todo h
      | exact inv_toggle_picking h
      | exact inv_toggle_page_selector h
      | exact inv_next h
      | exact inv_previous h
  case tab => exact inv_next_page h
  case backtab => exact inv_previous_page h
  case down => exact inv_next h
  case up => exact inv_previous h
  all_goals exact h

theorem inv_stepEditing {a : App} (h : Inv a) (now : Int) (k : KeyCode) :
    Inv (stepEditing a now k) := by
  cases k <;> simp only [stepEditing]
  case enter =>
    repeat' split
    all_goals first
      | exact Inv.of_frame h rfl rfl rfl
      | exact Inv.of_frame (inv_add_page h _) rfl rfl rfl
      | exact Inv.of_frame (inv_update_todo h) rfl rfl rfl
      | exact Inv.of_frame (inv_add_todo now h) rfl rfl rfl
  case char c => exact Inv.of_frame h rfl rfl rfl
  case backspace => exact Inv.of_frame h rfl rfl rfl
  case esc => exact Inv.of_frame h rfl rfl rfl
  all_goals exact h

theorem inv_stepPageSelect {a : App} (h : Inv a) (k : KeyCode) :
    Inv (stepPageSelect a k) := by
  cases k <;> simp only [stepPageSelect]
  case enter =>
    cases hps : a.page_select_state.selected with
    | none => exact h
    | some sel =>
      exact ⟨h.1, h.2.2 sel hps, fun i hi => h.2.2 i hi⟩
  case char c =>
    repeat' split
    all_goals first
      | exact h
      | exact Inv.of_frame h rfl rfl rfl
      | exact inv_delete_selected_page h
      | exact inv_page_select_down h
      | exact inv_page_select_up h
  case down => exact inv_page_select_down h
  case up => exact inv_page_select_up h
  case esc => exact Inv.of_frame h rfl rfl rfl
  all_goals exact h

theorem inv_step {a : App} (h : Inv a) (now : Int) (k : KeyCode) :
    Inv (step now a k) := by
  simp only [step]
  split
  · exact inv_stepNormal h k
  · exact inv_stepEditing h now k
  · exact inv_stepPageSelect h k

theorem inv_applyOp {a : App} (h : Inv a) (op : Op) : Inv (applyOp a op) := by
  cases op with
  | key now k => exact inv_step h now k
  | load c => exact inv_load_todos h c

theorem inv_new : Inv App.new := by
  refine ⟨by simp [App.new], by simp [App.new], ?_⟩
  intro i hi
  simp [App.new] at hi
  simp [App.new]
  omega

theorem inv_run (ops : List Op) : Inv (run ops) := by
  have key : ∀ (l : List Op) (a : App), Inv a → Inv (l.foldl applyOp a) := by
    intro l
    induction l with
    | nil => intro a ha; exact ha
    | cons op rest ih =>
      intro a ha
      exact ih (applyOp a op) (inv_applyOp ha op)
  exact key ops App.new inv_new

/-- C4: for every sequence of operations — key presses handled by the
event loop (adding and deleting pages and items included) and loads of
the persisted state — starting from the freshly constructed app, the
page collection is never empty and `current_page_index` is always a
valid index into it. -/
theorem pages_never_empty_and_index_valid (ops : List Op) :
    (run ops).pages ≠ [] ∧
    (run ops).current_page_index < (run ops).pages.length := by
  have h := inv_run ops
  exact ⟨List.ne_nil_of_length_pos h.1, h.2.1⟩

end RatDo

